import Mathlib

/-!
Verification development for the Saveit reference manager.

The Rust sources are shallowly embedded:
  * `src/source.rs`   — `Source`, `Source::format` (Default and Custom standards)
  * `src/config.rs`   — `Config`, `Config::get_config`
  * `src/database.rs` — the sqlite-backed store (modelled as an in-memory list)
  * `src/ui/list_page.rs` — `Entry` and the JSON import/export flows

Rust `String` is modelled as `List Char`, machine integers (`i64` row ids,
`i32` day counts) as unbounded `Int`; the claims under study never exercise
overflow, and chrono's validity range keeps day counts far inside `i32`.

chrono's `NaiveDate` is modelled as a year/month/day record together with the
two day-count conversions used by the repository: `num_days_from_ce` (day
count since the proleptic-Gregorian epoch, 0001-01-01 being day 1) and its
partial inverse `from_num_days_from_ce_opt`.  The inverse is implemented here
with the classical era/century/quadrennium/year cascade; chrono's internal
lookup-table implementation computes the same function on its documented
domain, and the round-trip theorem below certifies that this cascade is an
exact inverse of `num_days_from_ce` on every valid date.
-/

namespace Saveit

/-! ## Calendar model (chrono `NaiveDate`) -/

/-- Proleptic-Gregorian leap-year test, as in chrono / Rust (testing `%` for
equality with 0 agrees between Rust's truncating remainder and Lean's
`Int.emod`). -/
def is_leap_year (y : Int) : Bool :=
  y % 4 == 0 && (y % 100 != 0 || y % 400 == 0)

/-- Number of leap days of year `y`: 1 in a leap year, otherwise 0. -/
def leap_count (y : Int) : Int :=
  if is_leap_year y then 1 else 0

/-- Number of days in month `m` (1–12) of a year with `k` leap days. -/
def month_length (k m : Int) : Int :=
  if m = 1 then 31
  else if m = 2 then 28 + k
  else if m = 3 then 31
  else if m = 4 then 30
  else if m = 5 then 31
  else if m = 6 then 30
  else if m = 7 then 31
  else if m = 8 then 31
  else if m = 9 then 30
  else if m = 10 then 31
  else if m = 11 then 30
  else 31

/-- Model of `chrono::NaiveDate`: a calendar date. -/
structure NaiveDate where
  year : Int
  month : Int
  day : Int
deriving DecidableEq, Repr

/-- Smallest year of chrono's documented `NaiveDate` range. -/
def min_year : Int := -262143

/-- Largest year of chrono's documented `NaiveDate` range. -/
def max_year : Int := 262142

/-- Validity invariant of `chrono::NaiveDate`: a real calendar date inside
chrono's representable year range. -/
def valid_date (d : NaiveDate) : Prop :=
  1 ≤ d.month ∧ d.month ≤ 12 ∧
  1 ≤ d.day ∧ d.day ≤ month_length (leap_count d.year) d.month ∧
  min_year ≤ d.year ∧ d.year ≤ max_year

instance (d : NaiveDate) : Decidable (valid_date d) := by
  unfold valid_date; infer_instance

/-- Days contributed by all years strictly before year `y`, counted from the
epoch (`days_before_year 1 = 0`). -/
def days_before_year (y : Int) : Int :=
  365 * (y - 1) + (y - 1) / 4 - (y - 1) / 100 + (y - 1) / 400

/-- Days contributed by all months strictly before month `m` in a year with
`k` leap days. -/
def days_before_month (k m : Int) : Int :=
  if m = 1 then 0
  else if m = 2 then 31
  else if m = 3 then 59 + k
  else if m = 4 then 90 + k
  else if m = 5 then 120 + k
  else if m = 6 then 151 + k
  else if m = 7 then 181 + k
  else if m = 8 then 212 + k
  else if m = 9 then 243 + k
  else if m = 10 then 273 + k
  else if m = 11 then 304 + k
  else 334 + k

/-- Ordinal of a date inside its year (1 = January 1). -/
def ordinal_of (d : NaiveDate) : Int :=
  days_before_month (leap_count d.year) d.month + d.day

/-- Model of `chrono::Datelike::num_days_from_ce`: day count since the
proleptic-Gregorian epoch; 0001-01-01 is day 1. -/
def num_days_from_ce (d : NaiveDate) : Int :=
  days_before_year d.year + ordinal_of d

/-- Month of the date with year ordinal `ord` in a year with `k` leap days. -/
def month_of_ordinal (k ord : Int) : Int :=
  if ord ≤ 31 then 1
  else if ord ≤ 59 + k then 2
  else if ord ≤ 90 + k then 3
  else if ord ≤ 120 + k then 4
  else if ord ≤ 151 + k then 5
  else if ord ≤ 181 + k then 6
  else if ord ≤ 212 + k then 7
  else if ord ≤ 243 + k then 8
  else if ord ≤ 273 + k then 9
  else if ord ≤ 304 + k then 10
  else if ord ≤ 334 + k then 11
  else 12

/-- Day-of-month of the date with year ordinal `ord` in a year with `k` leap
days. -/
def day_of_ordinal (k ord : Int) : Int :=
  if ord ≤ 31 then ord
  else if ord ≤ 59 + k then ord - 31
  else if ord ≤ 90 + k then ord - 59 - k
  else if ord ≤ 120 + k then ord - 90 - k
  else if ord ≤ 151 + k then ord - 120 - k
  else if ord ≤ 181 + k then ord - 151 - k
  else if ord ≤ 212 + k then ord - 181 - k
  else if ord ≤ 243 + k then ord - 212 - k
  else if ord ≤ 273 + k then ord - 243 - k
  else if ord ≤ 304 + k then ord - 273 - k
  else if ord ≤ 334 + k then ord - 304 - k
  else ord - 334 - k

/-- Year containing epoch day `z + 1` (so `z` is the 0-based day index),
computed with the capped era/century/quadrennium/year division cascade. -/
def year_of_days (z : Int) : Int :=
  let era := z / 146097
  let doe := z - 146097 * era
  let cc := min (doe / 36524) 3
  let rc := doe - 36524 * cc
  let qq := rc / 1461
  let rq := rc - 1461 * qq
  let yy := min (rq / 365) 3
  400 * era + 100 * cc + 4 * qq + yy + 1

/-- Model of `chrono::NaiveDate::from_num_days_from_ce_opt`: partial inverse
of `num_days_from_ce`, `none` outside the representable range. -/
def from_num_days_from_ce_opt (n : Int) : Option NaiveDate :=
  let y := year_of_days (n - 1)
  let ord := n - days_before_year y
  let k := leap_count y
  if min_year ≤ y ∧ y ≤ max_year then
    some ⟨y, month_of_ordinal k ord, day_of_ordinal k ord⟩
  else none

theorem is_leap_year_iff (y : Int) :
    is_leap_year y = true ↔ (y % 4 = 0 ∧ (y % 100 ≠ 0 ∨ y % 400 = 0)) := by
  unfold is_leap_year
  simp [Bool.and_eq_true, beq_iff_eq, Bool.or_eq_true, bne_iff_ne]

theorem leap_count_cases (y : Int) : leap_count y = 0 ∨ leap_count y = 1 := by
  unfold leap_count; split
  · right; rfl
  · left; rfl

theorem days_before_year_decompose (a b c d : Int)
    (hb : 0 ≤ b ∧ b ≤ 3) (hc : 0 ≤ c ∧ c ≤ 24) (hd : 0 ≤ d ∧ d ≤ 3) :
    days_before_year (400 * a + 100 * b + 4 * c + d + 1)
      = 146097 * a + 36524 * b + 1461 * c + 365 * d := by
  unfold days_before_year
  have h4 : (400 * a + 100 * b + 4 * c + d + 1 - 1) / 4 = 100 * a + 25 * b + c := by omega
  have h100 : (400 * a + 100 * b + 4 * c + d + 1 - 1) / 100 = 4 * a + b := by omega
  have h400 : (400 * a + 100 * b + 4 * c + d + 1 - 1) / 400 = a := by omega
  rw [h4, h100, h400]; ring

theorem year_of_days_eq (a b c dd ord : Int)
    (hb : 0 ≤ b ∧ b ≤ 3) (hc : 0 ≤ c ∧ c ≤ 24) (hdd : 0 ≤ dd ∧ dd ≤ 3)
    (h1 : 1 ≤ ord)
    (hk : ord ≤ 365 + (if dd = 3 ∧ (c ≠ 24 ∨ b = 3) then (1:Int) else 0)) :
    year_of_days (146097 * a + 36524 * b + 1461 * c + 365 * dd + ord - 1)
      = 400 * a + 100 * b + 4 * c + dd + 1 := by
  simp only [year_of_days]
  have hera : (146097 * a + 36524 * b + 1461 * c + 365 * dd + ord - 1) / 146097 = a := by omega
  rw [hera]
  have hdoe : 146097 * a + 36524 * b + 1461 * c + 365 * dd + ord - 1 - 146097 * a
      = 36524 * b + 1461 * c + 365 * dd + ord - 1 := by ring
  rw [hdoe]
  have hcc : min ((36524 * b + 1461 * c + 365 * dd + ord - 1) / 36524) 3 = b := by omega
  rw [hcc]
  have hrc : 36524 * b + 1461 * c + 365 * dd + ord - 1 - 36524 * b
      = 1461 * c + 365 * dd + ord - 1 := by ring
  rw [hrc]
  have hqq : (1461 * c + 365 * dd + ord - 1) / 1461 = c := by omega
  rw [hqq]
  have hrq : 1461 * c + 365 * dd + ord - 1 - 1461 * c = 365 * dd + ord - 1 := by ring
  rw [hrq]
  have hyy : min ((365 * dd + ord - 1) / 365) 3 = dd := by omega
  rw [hyy]

theorem ordinal_bounds_core (k m day : Int) (hk : k = 0 ∨ k = 1)
    (hm1 : 1 ≤ m) (hm2 : m ≤ 12) (hd1 : 1 ≤ day) (hd2 : day ≤ month_length k m) :
    1 ≤ days_before_month k m + day ∧ days_before_month k m + day ≤ 365 + k := by
  unfold month_length at hd2
  unfold days_before_month
  omega

theorem month_of_ordinal_eq (k m day : Int) (hk : k = 0 ∨ k = 1)
    (hm1 : 1 ≤ m) (hm2 : m ≤ 12) (hd1 : 1 ≤ day) (hd2 : day ≤ month_length k m) :
    month_of_ordinal k (days_before_month k m + day) = m := by
  unfold month_length at hd2
  unfold days_before_month month_of_ordinal
  omega

theorem day_of_ordinal_eq (k m day : Int) (hk : k = 0 ∨ k = 1)
    (hm1 : 1 ≤ m) (hm2 : m ≤ 12) (hd1 : 1 ≤ day) (hd2 : day ≤ month_length k m) :
    day_of_ordinal k (days_before_month k m + day) = day := by
  unfold month_length at hd2
  unfold days_before_month day_of_ordinal
  omega

/-- Round trip of the chrono model: converting a valid date to its epoch day
count and back recovers the date. -/
theorem from_num_days_roundtrip (d : NaiveDate) (h : valid_date d) :
    from_num_days_from_ce_opt (num_days_from_ce d) = some d := by
  obtain ⟨hm1, hm2, hd1, hd2, hy1, hy2⟩ := h
  obtain ⟨a, b, c, dd, hy, hb, hc, hdd⟩ :
      ∃ a b c dd, d.year = 400 * a + 100 * b + 4 * c + dd + 1 ∧
        (0 ≤ b ∧ b ≤ 3) ∧ (0 ≤ c ∧ c ≤ 24) ∧ (0 ≤ dd ∧ dd ≤ 3) := by
    exact ⟨(d.year - 1) / 400, ((d.year - 1) % 400) / 100,
           (((d.year - 1) % 400) % 100) / 4, (((d.year - 1) % 400) % 100) % 4,
           by omega, by omega, by omega, by omega⟩
  have hdby : days_before_year d.year = 146097 * a + 36524 * b + 1461 * c + 365 * dd := by
    rw [hy]; exact days_before_year_decompose a b c dd hb hc hdd
  have hleap : (is_leap_year d.year = true) ↔ (dd = 3 ∧ (c ≠ 24 ∨ b = 3)) := by
    rw [is_leap_year_iff, hy]
    omega
  have hkk : leap_count d.year = if dd = 3 ∧ (c ≠ 24 ∨ b = 3) then (1:Int) else 0 := by
    unfold leap_count
    by_cases hcase : dd = 3 ∧ (c ≠ 24 ∨ b = 3)
    · rw [if_pos hcase, if_pos (hleap.mpr hcase)]
    · rw [if_neg hcase, if_neg (fun hl => hcase (hleap.mp hl))]
  have hord := ordinal_bounds_core (leap_count d.year) d.month d.day
    (leap_count_cases d.year) hm1 hm2 hd1 hd2
  have hord1 : 1 ≤ ordinal_of d := hord.1
  have hkbound : ordinal_of d ≤ 365 + (if dd = 3 ∧ (c ≠ 24 ∨ b = 3) then (1:Int) else 0) := by
    rw [← hkk]; exact hord.2
  have hn : num_days_from_ce d
      = 146097 * a + 36524 * b + 1461 * c + 365 * dd + ordinal_of d := by
    unfold num_days_from_ce; rw [hdby]
  simp only [from_num_days_from_ce_opt]
  rw [hn]
  rw [year_of_days_eq a b c dd (ordinal_of d) hb hc hdd hord1 hkbound]
  rw [← hy, hdby]
  have hords : 146097 * a + 36524 * b + 1461 * c + 365 * dd + ordinal_of d
      - (146097 * a + 36524 * b + 1461 * c + 365 * dd) = ordinal_of d := by ring
  rw [hords]
  rw [show ordinal_of d = days_before_month (leap_count d.year) d.month + d.day from rfl]
  rw [month_of_ordinal_eq (leap_count d.year) d.month d.day
    (leap_count_cases d.year) hm1 hm2 hd1 hd2]
  rw [day_of_ordinal_eq (leap_count d.year) d.month d.day
    (leap_count_cases d.year) hm1 hm2 hd1 hd2]
  rw [if_pos ⟨hy1, hy2⟩]

/-! ## Decimal rendering (Rust `format!` / chrono numeric items)

`Nat.toDigits 10` renders a natural number in decimal exactly as Rust's
`Display` for integers does. -/

/-- Decimal digits of a natural number. -/
def nat_digits (n : Nat) : List Char := Nat.toDigits 10 n

/-- Left-pad a rendered number with zeros to width `w` (chrono `Pad::Zero`). -/
def zero_pad (w : Nat) (s : List Char) : List Char :=
  List.replicate (w - s.length) '0' ++ s

/-- chrono rendering of a year for `%Y`: zero-padded to 4 digits, a sign for
years outside 0–9999. -/
def format_year (y : Int) : List Char :=
  if y < 0 then '-' :: zero_pad 4 (nat_digits (-y).toNat)
  else if y ≤ 9999 then zero_pad 4 (nat_digits y.toNat)
  else '+' :: nat_digits y.toNat

/-- chrono rendering of a month or day number: zero-padded to 2 digits. -/
def zero2 (n : Int) : List Char := zero_pad 2 (nat_digits n.toNat)

/-- Rust `format!` rendering of an `i64`. -/
def int_to_string (n : Int) : List Char :=
  if n < 0 then '-' :: nat_digits (-n).toNat else nat_digits n.toNat

/-- chrono rendering of a date with the format string `%d. %m. %Y`. -/
def render_dmy (d : NaiveDate) : List Char :=
  zero2 d.day ++ (". ".data) ++ zero2 d.month ++ (". ".data) ++ format_year d.year

/-! ## chrono strftime fragment

`NaiveDate::format(fmt).to_string()` parses `fmt` lazily; an item that is not
a valid specifier becomes `Item::Error`, and rendering an `Item::Error`
panics inside `to_string`.  The model covers the date specifiers `%d`, `%m`,
`%Y` and the escape `%%`; every other `%`-item is mapped to the panic outcome
`none`.  (chrono has further specifiers — `%a`, `%e`, … — that are not used
anywhere in this development; characters like `q` that are no specifier at
all panic in chrono exactly as modelled here.) -/

/-- Expansion of a single `%`-specifier, `none` for an invalid item. -/
def format_spec (d : NaiveDate) (c : Char) : Option (List Char) :=
  if c = 'Y' then some (format_year d.year)
  else if c = 'm' then some (zero2 d.month)
  else if c = 'd' then some (zero2 d.day)
  else if c = '%' then some ['%']
  else none

/-- Model of `NaiveDate::format(fmt).to_string()`: renders `fmt` against the
date, `none` when the format string contains an invalid item (in which case
chrono's `to_string` panics). -/
def format_date (d : NaiveDate) : List Char → Option (List Char)
  | [] => some []
  | '%' :: rest =>
      match rest with
      | [] => none
      | c :: rest2 =>
          match format_spec d c with
          | none => none
          | some piece => Option.map (fun t => piece ++ t) (format_date d rest2)
  | c :: rest => Option.map (fun t => c :: t) (format_date d rest)

/-! ## Regex scanning model

`Source::format` uses three regex shapes on the template:
  * literal patterns `\{INDEX\}`, `\{TITLE\}`, `\{URL\}`, `\{AUTHOR\}`,
    replaced everywhere (`Regex::replace_all`);
  * `\{P_DATE\((?<format>[^)]*)\)}` / `\{V_DATE\(...\)}` — first-match capture
    of the embedded sub-format (`Regex::captures`);
  * `\{P_DATE\([^)]*\)}` / `\{V_DATE\([^)]*\)}` — replaced everywhere.

The scanners below implement exactly these fixed patterns over `List Char`:
leftmost matching, non-overlapping replacement, greedy `[^)]*`.  Replacement
text is inserted literally; the regex crate's `$`-expansion of replacement
strings is not modelled (no replacement string in the theorems below contains
`$`, and the totality theorem is insensitive to it). -/

/-- Replace-all of the literal pattern `pat` by `repl`; the `Nat` argument
skips over text already matched (0 while scanning). -/
def replaceLitGo (pat repl : List Char) : Nat → List Char → List Char
  | k+1, _ :: rest => replaceLitGo pat repl k rest
  | _+1, [] => []
  | 0, [] => []
  | 0, c :: rest =>
      if pat.isPrefixOf (c :: rest) then
        repl ++ replaceLitGo pat repl (pat.length - 1) rest
      else
        c :: replaceLitGo pat repl 0 rest

/-- Model of `Regex::replace_all` for a literal pattern. -/
def replaceLit (pat repl s : List Char) : List Char :=
  replaceLitGo pat repl 0 s

/-- Replace-all of `tag ++ [^)]* ++ ")\x7d"` by `repl` (the two date
placeholder regexes); the `Nat` argument skips matched text. -/
def replacePatGo (tag repl : List Char) : Nat → List Char → List Char
  | k+1, _ :: rest => replacePatGo tag repl k rest
  | _+1, [] => []
  | 0, [] => []
  | 0, c :: rest =>
      if tag.isPrefixOf (c :: rest) then
        let after := List.drop tag.length (c :: rest)
        let inner := after.takeWhile (fun x => x ≠ ')')
        match after.dropWhile (fun x => x ≠ ')') with
        | ')' :: '\x7d' :: _ =>
            repl ++ replacePatGo tag repl (tag.length + inner.length + 1) rest
        | _ => c :: replacePatGo tag repl 0 rest
      else c :: replacePatGo tag repl 0 rest

/-- Model of `Regex::replace_all` for the date placeholder patterns. -/
def replacePat (tag repl s : List Char) : List Char :=
  replacePatGo tag repl 0 s

/-- Model of `Regex::captures` for `tag ++ (?<format>[^)]*) ++ ")\x7d"`:
first match's `format` group. -/
def captureGo (tag : List Char) : List Char → Option (List Char)
  | [] => none
  | c :: rest =>
      if tag.isPrefixOf (c :: rest) then
        let after := List.drop tag.length (c :: rest)
        let inner := after.takeWhile (fun x => x ≠ ')')
        match after.dropWhile (fun x => x ≠ ')') with
        | ')' :: '\x7d' :: _ => some inner
        | _ => captureGo tag rest
      else captureGo tag rest

/-! ## Config and Source (src/config.rs, src/source.rs) -/

/-- Model of `config.rs` `FormatStandard`. -/
inductive FormatStandard
  | Default
  | Custom
deriving DecidableEq, Repr

/-- Model of `config.rs` `Config`. -/
structure Config where
  language : List Char
  format_standard : FormatStandard
  custom_format : List Char
deriving DecidableEq, Repr

/-- Model of `impl Default for Config`. -/
def Config.default : Config :=
  { language := ("en".data)
    format_standard := FormatStandard.Default
    custom_format := ("CUSTOM FORMAT".data) }

/-- Model of `source.rs` `Source` (field for field). -/
structure Source where
  id : Int
  title : List Char
  url : List Char
  author : List Char
  published_date : NaiveDate
  viewed_date : NaiveDate
  published_date_unknown : Bool
  comment : List Char
deriving DecidableEq, Repr

/-- The `{P_DATE(` opening of the published-date placeholder. -/
def pdate_tag : List Char := ("\x7bP_DATE(".data)

/-- The `{V_DATE(` opening of the viewed-date placeholder. -/
def vdate_tag : List Char := ("\x7bV_DATE(".data)

/-- Fallback date sub-format `%d. %m. %Y` used by `Source::format`. -/
def default_date_format : List Char := ("%d. %m. %Y".data)

/-- Sub-format resolution of `Source::format`: first capture of the
placeholder's `format` group, with the default pattern when the placeholder
is absent or its group is empty. -/
def resolve_date_format (tag custom : List Char) : List Char :=
  match captureGo tag custom with
  | none => default_date_format
  | some cap => if cap = [] then default_date_format else cap

/-- Model of `Source::format` (src/source.rs lines 21–118).  The `Config`
that the Rust code reads through `Config::get_config()` inside the `Custom`
arm is passed explicitly.  The result is `none` exactly when the Rust code
panics inside chrono's date rendering. -/
def Source.format (s : Source) (standard : FormatStandard) (config : Config) :
    Option (List Char) :=
  match standard with
  | .Default =>
      some (("[".data) ++ int_to_string s.id ++ ("]".data)
        ++ (if s.author = [] then (" Unbekannt".data) else (" ".data) ++ s.author)
        ++ (if s.published_date_unknown then []
            else (" (".data) ++ format_year s.published_date.year ++ (")".data))
        ++ (": ".data) ++ s.title ++ (" URL: ".data) ++ s.url
        ++ (" [Stand: ".data) ++ render_dmy s.viewed_date ++ ("]".data))
  | .Custom =>
      let viewed_date_format := resolve_date_format vdate_tag config.custom_format
      let published_date_format := resolve_date_format pdate_tag config.custom_format
      let out0 := config.custom_format
      let out1 := replaceLit ("\x7bINDEX\x7d".data) (int_to_string s.id) out0
      let out2 := replaceLit ("\x7bTITLE\x7d".data) s.title out1
      let out3 := replaceLit ("\x7bURL\x7d".data) s.url out2
      let out4 := replaceLit ("\x7bAUTHOR\x7d".data) s.author out3
      if s.published_date_unknown then
        let out5 := replacePat pdate_tag ("Unknown".data) out4
        match format_date s.viewed_date viewed_date_format with
        | none => none
        | some v => some (replacePat vdate_tag v out5)
      else
        match format_date s.published_date published_date_format with
        | none => none
        | some p =>
          let out5 := replacePat pdate_tag p out4
          match format_date s.viewed_date viewed_date_format with
          | none => none
          | some v => some (replacePat vdate_tag v out5)

/-! ## Scanning lemmas -/

theorem replaceLit_no_match (pat repl : List Char) :
    ∀ s : List Char, ¬ pat <:+: s → replaceLit pat repl s = s := by
  intro s
  induction s with
  | nil => intro h; rfl
  | cons c rest ih =>
      intro h
      unfold replaceLit replaceLitGo
      rw [if_neg]
      · have hni : ¬ pat <:+: rest := fun hi => h (List.infix_cons hi)
        have : replaceLitGo pat repl 0 rest = rest := ih hni
        rw [this]
      · intro hp
        exact h ((List.isPrefixOf_iff_prefix.mp hp).isInfix)

theorem captureGo_no_match (tag : List Char) :
    ∀ s : List Char, ¬ tag <:+: s → captureGo tag s = none := by
  intro s
  induction s with
  | nil => intro h; rfl
  | cons c rest ih =>
      intro h
      unfold captureGo
      rw [if_neg]
      · exact ih (fun hi => h (List.infix_cons hi))
      · intro hp
        exact h ((List.isPrefixOf_iff_prefix.mp hp).isInfix)

theorem replacePat_no_match (tag repl : List Char) :
    ∀ s : List Char, ¬ tag <:+: s → replacePat tag repl s = s := by
  intro s
  induction s with
  | nil => intro h; rfl
  | cons c rest ih =>
      intro h
      unfold replacePat replacePatGo
      rw [if_neg]
      · have hni : ¬ tag <:+: rest := fun hi => h (List.infix_cons hi)
        have : replacePatGo tag repl 0 rest = rest := ih hni
        rw [this]
      · intro hp
        exact h ((List.isPrefixOf_iff_prefix.mp hp).isInfix)

/-- A pattern whose head char does not occur in `s` is not an infix of `s`. -/
theorem not_infix_of_head_not_mem {c : Char} {p s : List Char}
    (h : c ∉ s) : ¬ (c :: p) <:+: s :=
  fun hi => h (hi.subset (List.mem_cons_self c p))

/-- In a string whose only opening brace sits at the marked position, an
infix starting with an opening brace continues at that position. -/
theorem infix_single_brace {p a r : List Char}
    (ha : '\x7b' ∉ a) (hr : '\x7b' ∉ r)
    (h : ('\x7b' :: p) <:+: (a ++ '\x7b' :: r)) : p <+: r := by
  induction a with
  | nil =>
      simp only [List.nil_append] at h
      rcases List.infix_cons_iff.mp h with hpre | hinf
      · exact (List.cons_prefix_cons.mp hpre).2
      · exact absurd (hinf.subset (List.mem_cons_self _ _)) hr
  | cons x a' ih =>
      rcases List.infix_cons_iff.mp h with hpre | hinf
      · rcases List.cons_prefix_cons.mp hpre with ⟨hx, -⟩
        exact absurd (hx ▸ List.mem_cons_self x a') ha
      · exact ih (fun hm => ha (List.mem_cons_of_mem x hm)) hinf

theorem takeWhile_not_rparen (f r : List Char) (hf : ')' ∉ f) :
    (f ++ ')' :: r).takeWhile (fun x => x ≠ ')') = f := by
  rw [List.takeWhile_append_of_pos]
  · rw [List.takeWhile_cons_of_neg]
    · rw [List.append_nil]
    · simp
  · intro x hx
    simp only [ne_eq, decide_eq_true_eq]
    intro h
    exact hf (h ▸ hx)

theorem dropWhile_not_rparen (f r : List Char) (hf : ')' ∉ f) :
    (f ++ ')' :: r).dropWhile (fun x => x ≠ ')') = ')' :: r := by
  rw [List.dropWhile_append_of_pos]
  · rw [List.dropWhile_cons_of_neg]
    simp
  · intro x hx
    simp only [ne_eq, decide_eq_true_eq]
    intro h
    exact hf (h ▸ hx)

theorem replacePatGo_skip (tag repl : List Char) :
    ∀ (k : Nat) (s : List Char),
      replacePatGo tag repl k s = replacePatGo tag repl 0 (s.drop k) := by
  intro k
  induction k with
  | zero => intro s; rw [List.drop_zero]
  | succ k ih =>
      intro s
      cases s with
      | nil => rfl
      | cons c rest => rw [List.drop_succ_cons, ← ih rest]; rfl

/-- The placeholder regex fires on `tag ++ fmt ++ ")\x7d"` and resumes after
the match. -/
theorem replacePatGo_match (tc : Char) (tgt repl f b : List Char) (hf : ')' ∉ f) :
    replacePatGo (tc :: tgt) repl 0 (tc :: (tgt ++ (f ++ ')' :: '\x7d' :: b)))
      = repl ++ replacePatGo (tc :: tgt) repl 0 b := by
  have hpre : (tc :: tgt).isPrefixOf (tc :: (tgt ++ (f ++ ')' :: '\x7d' :: b))) = true :=
    List.isPrefixOf_iff_prefix.mpr (List.cons_prefix_cons.mpr ⟨rfl, List.prefix_append _ _⟩)
  simp only [replacePatGo]
  rw [if_pos hpre]
  rw [List.length_cons, List.drop_succ_cons, List.drop_left]
  rw [takeWhile_not_rparen f _ hf, dropWhile_not_rparen f _ hf]
  rw [replacePatGo_skip]
  have hb : List.drop (tgt.length + 1 + f.length + 1) (tgt ++ (f ++ ')' :: '\x7d' :: b)) = b := by
    rw [show tgt ++ (f ++ ')' :: '\x7d' :: b) = (tgt ++ f ++ [')', '\x7d']) ++ b by simp]
    rw [List.drop_left']
    simp
    omega
  rw [hb]
  rfl

/-- The first capture of the placeholder regex on `tag ++ fmt ++ ")\x7d"` is
`fmt`. -/
theorem captureGo_match (tc : Char) (tgt f b : List Char) (hf : ')' ∉ f) :
    captureGo (tc :: tgt) (tc :: (tgt ++ (f ++ ')' :: '\x7d' :: b))) = some f := by
  have hpre : (tc :: tgt).isPrefixOf (tc :: (tgt ++ (f ++ ')' :: '\x7d' :: b))) = true :=
    List.isPrefixOf_iff_prefix.mpr (List.cons_prefix_cons.mpr ⟨rfl, List.prefix_append _ _⟩)
  simp only [captureGo]
  rw [if_pos hpre]
  rw [List.length_cons, List.drop_succ_cons, List.drop_left]
  rw [takeWhile_not_rparen f _ hf, dropWhile_not_rparen f _ hf]
  rfl

theorem replacePatGo_cons_other (tg repl : List Char) (x : Char) (hx : x ≠ '\x7b')
    (s : List Char) :
    replacePatGo ('\x7b' :: tg) repl 0 (x :: s)
      = x :: replacePatGo ('\x7b' :: tg) repl 0 s := by
  have hnp : ¬ ('\x7b' :: tg).isPrefixOf (x :: s) = true := by
    intro hp
    exact hx ((List.cons_prefix_cons.mp (List.isPrefixOf_iff_prefix.mp hp)).1.symm)
  conv_lhs => rw [replacePatGo]
  rw [if_neg hnp]

theorem replacePatGo_append_other (tg repl a : List Char) (ha : '\x7b' ∉ a) (s : List Char) :
    replacePatGo ('\x7b' :: tg) repl 0 (a ++ s) = a ++ replacePatGo ('\x7b' :: tg) repl 0 s := by
  induction a with
  | nil => rfl
  | cons x a' ih =>
      rw [List.cons_append, replacePatGo_cons_other tg repl x
        (fun h => ha (h ▸ List.mem_cons_self x a')) _,
        ih (fun hm => ha (List.mem_cons_of_mem x hm)), List.cons_append]

theorem captureGo_cons_other (tg : List Char) (x : Char) (hx : x ≠ '\x7b') (s : List Char) :
    captureGo ('\x7b' :: tg) (x :: s) = captureGo ('\x7b' :: tg) s := by
  have hnp : ¬ ('\x7b' :: tg).isPrefixOf (x :: s) = true := by
    intro hp
    exact hx ((List.cons_prefix_cons.mp (List.isPrefixOf_iff_prefix.mp hp)).1.symm)
  conv_lhs => rw [captureGo]
  rw [if_neg hnp]

theorem captureGo_append_other (tg a : List Char) (ha : '\x7b' ∉ a) (s : List Char) :
    captureGo ('\x7b' :: tg) (a ++ s) = captureGo ('\x7b' :: tg) s := by
  induction a with
  | nil => rfl
  | cons x a' ih =>
      rw [List.cons_append, captureGo_cons_other tg x
        (fun h => ha (h ▸ List.mem_cons_self x a')) _,
        ih (fun hm => ha (List.mem_cons_of_mem x hm))]

/-! ## Placeholder templates

A custom template built from brace-free literal segments interleaved with
any number of `P_DATE` placeholders, each carrying its own embedded
sub-format.  `Source::format` captures only the *first* placeholder's
sub-format and substitutes that single rendering for *every* placeholder;
the lemmas below establish this over the whole template family. -/

/-- An infix starting with an opening brace of a string whose first opening
brace is at the marked position either continues at that position or lies
entirely in the remainder. -/
theorem infix_brace_split {p a r : List Char} (ha : '\x7b' ∉ a)
    (h : ('\x7b' :: p) <:+: (a ++ '\x7b' :: r)) :
    p <+: r ∨ ('\x7b' :: p) <:+: r := by
  induction a with
  | nil =>
      simp only [List.nil_append] at h
      rcases List.infix_cons_iff.mp h with hpre | hinf
      · exact Or.inl (List.cons_prefix_cons.mp hpre).2
      · exact Or.inr hinf
  | cons x a' ih =>
      rcases List.infix_cons_iff.mp h with hpre | hinf
      · rcases List.cons_prefix_cons.mp hpre with ⟨hx, -⟩
        exact absurd (hx ▸ List.mem_cons_self x a') ha
      · exact ih (fun hm => ha (List.mem_cons_of_mem x hm)) hinf

/-- A brace-headed infix of `A ++ T` with no brace in `A` is an infix of
`T`. -/
theorem infix_brace_tail {p : List Char} :
    ∀ (A T : List Char), '\x7b' ∉ A →
      ('\x7b' :: p) <:+: (A ++ T) → ('\x7b' :: p) <:+: T := by
  intro A
  induction A with
  | nil => intro T _ h; exact h
  | cons x A' ih =>
      intro T hA h
      rcases List.infix_cons_iff.mp h with hpre | hinf
      · rcases List.cons_prefix_cons.mp hpre with ⟨hx, -⟩
        exact absurd (hx ▸ List.mem_cons_self x A') hA
      · exact ih T (fun hm => hA (List.mem_cons_of_mem x hm)) hinf

/-- A custom template: a leading literal segment followed by a sequence of
published-date placeholders, each a pair of its embedded sub-format and its
trailing literal segment. -/
def pdate_template : List Char → List (List Char × List Char) → List Char
  | a0, [] => a0
  | a0, (f, a) :: rest => a0 ++ pdate_tag ++ f ++ ')' :: '\x7d' :: pdate_template a rest

/-- The same template with every placeholder replaced by `r`. -/
def pdate_substituted (r : List Char) :
    List Char → List (List Char × List Char) → List Char
  | a0, [] => a0
  | a0, (_, a) :: rest => a0 ++ r ++ pdate_substituted r a rest

/-- Side condition making each placeholder exactly one regex match: the
literal segments contain no opening brace and the sub-formats contain
neither an opening brace nor a closing parenthesis. -/
def plain_segments (a0 : List Char) (ps : List (List Char × List Char)) : Prop :=
  '\x7b' ∉ a0 ∧ ∀ q ∈ ps, '\x7b' ∉ q.1 ∧ ')' ∉ q.1 ∧ '\x7b' ∉ q.2

instance (a0 : List Char) (ps : List (List Char × List Char)) :
    Decidable (plain_segments a0 ps) := by
  unfold plain_segments; infer_instance

/-- Every brace-headed infix of a plain-segment template continues with `P`
(the opening of a `P_DATE` placeholder); so no other placeholder pattern
matches anywhere in the template. -/
theorem pdate_template_infix_head :
    ∀ (ps : List (List Char × List Char)) (a0 : List Char) (x : Char) (pt : List Char),
      plain_segments a0 ps → x ≠ 'P' →
      ¬ ('\x7b' :: x :: pt) <:+: pdate_template a0 ps := by
  intro ps
  induction ps with
  | nil =>
      intro a0 x pt hpl hx hinf
      simp only [pdate_template] at hinf
      exact hpl.1 (hinf.subset (List.mem_cons_self _ _))
  | cons q rest ih =>
      intro a0 x pt hpl hx hinf
      obtain ⟨f, a⟩ := q
      have hq := hpl.2 (f, a) (List.mem_cons_self _ _)
      have hshape : pdate_template a0 ((f, a) :: rest)
          = a0 ++ '\x7b' :: (("P_DATE(".data)
              ++ ((f ++ [')', '\x7d']) ++ pdate_template a rest)) := by
        show a0 ++ pdate_tag ++ f ++ ')' :: '\x7d' :: pdate_template a rest = _
        rw [show pdate_tag = '\x7b' :: ("P_DATE(".data) from rfl]
        simp [List.append_assoc]
      rw [hshape] at hinf
      rcases infix_brace_split hpl.1 hinf with hpre | hinf2
      · exact hx (List.cons_prefix_cons.mp hpre).1
      · have hA : '\x7b' ∉ (("P_DATE(".data) ++ (f ++ [')', '\x7d'])) := by
          intro hm
          rcases List.mem_append.mp hm with h1 | h2
          · exact absurd h1 (by decide)
          · rcases List.mem_append.mp h2 with h3 | h4
            · exact hq.1 h3
            · exact absurd h4 (by decide)
        rw [← List.append_assoc, List.append_assoc ("P_DATE(".data)] at hinf2
        have hinf3 := infix_brace_tail _ _ hA hinf2
        exact ih a x pt ⟨hq.2.2, fun q hm => hpl.2 q (List.mem_cons_of_mem _ hm)⟩ hx hinf3

/-- The first capture of the published-date placeholder regex on a
plain-segment template is the first placeholder's sub-format. -/
theorem captureGo_pdate_template (a0 f a : List Char)
    (rest : List (List Char × List Char))
    (ha0 : '\x7b' ∉ a0) (hf : ')' ∉ f) :
    captureGo pdate_tag (pdate_template a0 ((f, a) :: rest)) = some f := by
  have hshape : pdate_template a0 ((f, a) :: rest)
      = a0 ++ '\x7b' :: (("P_DATE(".data)
          ++ (f ++ ')' :: '\x7d' :: pdate_template a rest)) := by
    show a0 ++ pdate_tag ++ f ++ ')' :: '\x7d' :: pdate_template a rest = _
    rw [show pdate_tag = '\x7b' :: ("P_DATE(".data) from rfl]
    simp [List.append_assoc]
  rw [hshape]
  rw [show pdate_tag = '\x7b' :: ("P_DATE(".data) from rfl]
  rw [captureGo_append_other ("P_DATE(".data) a0 ha0]
  exact captureGo_match '\x7b' ("P_DATE(".data) f _ hf

/-- Replace-all of the published-date placeholder on a plain-segment
template substitutes `r` for every placeholder, first and later ones
alike. -/
theorem replacePat_pdate_template (r : List Char) :
    ∀ (ps : List (List Char × List Char)) (a0 : List Char),
      plain_segments a0 ps →
      replacePat pdate_tag r (pdate_template a0 ps) = pdate_substituted r a0 ps := by
  intro ps
  induction ps with
  | nil =>
      intro a0 hpl
      simp only [pdate_template, pdate_substituted]
      have hni : ¬ pdate_tag <:+: a0 := by
        rw [show pdate_tag = '\x7b' :: ("P_DATE(".data) from rfl]
        exact not_infix_of_head_not_mem hpl.1
      exact replacePat_no_match _ _ _ hni
  | cons q rest ih =>
      intro a0 hpl
      obtain ⟨f, a⟩ := q
      have hq := hpl.2 (f, a) (List.mem_cons_self _ _)
      have hshape : pdate_template a0 ((f, a) :: rest)
          = a0 ++ '\x7b' :: (("P_DATE(".data)
              ++ (f ++ ')' :: '\x7d' :: pdate_template a rest)) := by
        show a0 ++ pdate_tag ++ f ++ ')' :: '\x7d' :: pdate_template a rest = _
        rw [show pdate_tag = '\x7b' :: ("P_DATE(".data) from rfl]
        simp [List.append_assoc]
      rw [hshape]
      rw [show pdate_tag = '\x7b' :: ("P_DATE(".data) from rfl]
      show replacePatGo ('\x7b' :: ("P_DATE(".data)) r 0
          (a0 ++ '\x7b' :: (("P_DATE(".data)
            ++ (f ++ ')' :: '\x7d' :: pdate_template a rest)))
        = pdate_substituted r a0 ((f, a) :: rest)
      rw [replacePatGo_append_other ("P_DATE(".data) r a0 hpl.1]
      rw [replacePatGo_match '\x7b' ("P_DATE(".data) r f _ hq.2.1]
      have hrest : replacePatGo ('\x7b' :: ("P_DATE(".data)) r 0 (pdate_template a rest)
          = pdate_substituted r a rest := by
        have h2 := ih a ⟨hq.2.2, fun q hm => hpl.2 q (List.mem_cons_of_mem _ hm)⟩
        rw [show pdate_tag = '\x7b' :: ("P_DATE(".data) from rfl] at h2
        exact h2
      rw [hrest]
      simp only [pdate_substituted]
      rw [List.append_assoc]

/-- The substituted template contains no opening brace when the replacement
and the literal segments contain none. -/
theorem brace_not_mem_substituted (r : List Char) (hr : '\x7b' ∉ r) :
    ∀ (ps : List (List Char × List Char)) (a0 : List Char),
      '\x7b' ∉ a0 → (∀ q ∈ ps, '\x7b' ∉ q.2) →
      '\x7b' ∉ pdate_substituted r a0 ps := by
  intro ps
  induction ps with
  | nil =>
      intro a0 ha0 _
      simp only [pdate_substituted]
      exact ha0
  | cons q rest ih =>
      intro a0 ha0 hps
      obtain ⟨f, a⟩ := q
      simp only [pdate_substituted]
      intro hm
      rcases List.mem_append.mp hm with h | h
      · rcases List.mem_append.mp h with h1 | h2
        · exact ha0 h1
        · exact hr h2
      · exact ih a (hps (f, a) (List.mem_cons_self _ _))
          (fun q hm2 => hps q (List.mem_cons_of_mem _ hm2)) h

/-! ## Source store (src/database.rs)

The sqlite table is modelled as an in-memory list of rows in insertion
order.  The error side of `sqlx::Result` has no inhabitant here: the only
`sqlx` errors are I/O and constraint failures, which the in-memory model
cannot produce; in particular SQL `UPDATE`/`DELETE` statements that affect
zero rows are *successes* carrying `rows_affected = 0`. -/

/-- Error type of the modelled store; uninhabited, since the in-memory model
cannot fail. -/
inductive DbError
deriving DecidableEq

/-- Rowid assigned by sqlite to a fresh row: one more than the largest
existing rowid. -/
def next_id (st : List Source) : Int :=
  (st.map Source.id).foldr max 0 + 1

/-- Model of `insert_source`: appends a row; the `id` of the argument is not
bound in the `INSERT` statement, the store assigns the rowid. -/
def insert_source (s : Source) (st : List Source) : Except DbError (List Source) :=
  .ok (st ++ [{ s with id := next_id st }])

/-- Model of `get_all_sources` (`SELECT * FROM sources`). -/
def get_all_sources (st : List Source) : Except DbError (List Source) :=
  .ok st

/-- Model of `delete_source` (`DELETE FROM sources WHERE id = $1`, result
mapped to `()` in Rust): the new table and the affected row count that the
Rust code discards. -/
def delete_source (id : Int) (st : List Source) :
    Except DbError (List Source × Nat) :=
  .ok (st.filter (fun r => r.id ≠ id), (st.filter (fun r => r.id = id)).length)

/-- Model of `update_source` (`UPDATE sources SET … WHERE id = $8`, result
mapped to `()` in Rust): replaces every field except the id on matching rows
and reports the affected row count that the Rust code discards. -/
def update_source (id : Int) (s : Source) (st : List Source) :
    Except DbError (List Source × Nat) :=
  .ok (st.map (fun r => if r.id = id then { s with id := r.id } else r),
       (st.filter (fun r => r.id = id)).length)

/-! ## JSON entries and import/export (src/ui/list_page.rs) -/

/-- Model of the `Entry` serde struct: dates are serialized as `i32` day
counts since the epoch (`num_days_from_ce`). -/
structure Entry where
  id : Int
  title : List Char
  url : List Char
  author : List Char
  published_date : Int
  viewed_date : Int
  published_date_unknown : Bool
  comment : List Char
deriving DecidableEq, Repr

/-- Model of `impl From<Source> for Entry`. -/
def entry_from_source (s : Source) : Entry :=
  { id := s.id
    title := s.title
    url := s.url
    author := s.author
    published_date := num_days_from_ce s.published_date
    viewed_date := num_days_from_ce s.viewed_date
    published_date_unknown := s.published_date_unknown
    comment := s.comment }

/-- Model of `impl Into<Source> for Entry`; the `unwrap` of
`from_num_days_from_ce_opt` panics (`none`) on an unrepresentable day
count. -/
def entry_into_source (e : Entry) : Option Source :=
  match from_num_days_from_ce_opt e.published_date,
        from_num_days_from_ce_opt e.viewed_date with
  | some p, some v =>
      some { id := e.id
             title := e.title
             url := e.url
             author := e.author
             published_date := p
             viewed_date := v
             published_date_unknown := e.published_date_unknown
             comment := e.comment }
  | _, _ => none

/-- Insertion of a batch of converted sources into the store, in a given
commit order. -/
def insert_all (srcs st : List Source) : List Source :=
  srcs.foldl (fun acc s =>
    match insert_source s acc with
    | .ok st2 => st2) st

/-- Import flow of `render`: convert every entry up front (a failed
conversion panics the handler before any insert), then insert the converted
sources.  The Rust code spawns one task per insert and awaits them all
before the single cache refresh; the store serializes the concurrent
inserts, but their commit order is whichever interleaving the scheduler
produces — any permutation of the entries.  The flow is therefore a
relation from the initial store to its possible final stores; a conversion
panic has no outcome. -/
def import_outcome (st : List Source) (entries : List Entry)
    (st2 : List Source) : Prop :=
  match entries.mapM entry_into_source with
  | none => False
  | some srcs => ∃ order, srcs.Perm order ∧ st2 = insert_all order st

/-- Export serialization: the cached sources, converted to entries. -/
def export_entries (cache : List Source) : List Entry :=
  cache.map entry_from_source

/-- Field-wise equality of sources apart from the store-assigned id. -/
def same_except_id (a b : Source) : Prop :=
  a.title = b.title ∧ a.url = b.url ∧ a.author = b.author ∧
  a.published_date = b.published_date ∧ a.viewed_date = b.viewed_date ∧
  a.published_date_unknown = b.published_date_unknown ∧ a.comment = b.comment

instance (a b : Source) : Decidable (same_except_id a b) := by
  unfold same_except_id; infer_instance

/-! ## serde_json pretty printing (for the export flow) -/

/-- serde_json escaping of one character inside a JSON string (lowercase
`\u00XX` for unlisted control characters). -/
def json_escape_char (c : Char) : List Char :=
  if c = '"' then ['\\', '"']
  else if c = '\\' then ['\\', '\\']
  else if c = '\x08' then ['\\', 'b']
  else if c = '\t' then ['\\', 't']
  else if c = '\n' then ['\\', 'n']
  else if c = '\x0c' then ['\\', 'f']
  else if c = '\r' then ['\\', 'r']
  else if c.toNat < 32 then
    '\\' :: 'u' :: '0' :: '0' ::
      [Nat.digitChar (c.toNat / 16), Nat.digitChar (c.toNat % 16)]
  else [c]

/-- JSON string literal with quotes and escapes. -/
def json_string (s : List Char) : List Char :=
  '"' :: (s.foldr (fun c acc => json_escape_char c ++ acc) ['"'])

/-- JSON boolean literal. -/
def json_bool (b : Bool) : List Char :=
  if b then ("true".data) else ("false".data)

/-- Fields of one serialized `Entry`, in struct declaration order. -/
def entry_json_fields (e : Entry) : List (List Char × List Char) :=
  [(("id".data), int_to_string e.id),
   (("title".data), json_string e.title),
   (("url".data), json_string e.url),
   (("author".data), json_string e.author),
   (("published_date".data), int_to_string e.published_date),
   (("viewed_date".data), int_to_string e.viewed_date),
   (("published_date_unknown".data), json_bool e.published_date_unknown),
   (("comment".data), json_string e.comment)]

/-- One `Entry` as a pretty-printed JSON object at array-element depth
(serde_json two-space indentation). -/
def json_of_entry (e : Entry) : List Char :=
  ("\x7b\n".data)
  ++ List.intercalate (",\n".data)
      ((entry_json_fields e).map
        (fun p => ("    ".data) ++ json_string p.1 ++ (": ".data) ++ p.2))
  ++ ("\n  \x7d".data)

/-- Model of `serde_json::to_string_pretty` on a `Vec<Entry>`. -/
def to_string_pretty (entries : List Entry) : List Char :=
  match entries with
  | [] => ("[]".data)
  | _ => ("[\n".data)
      ++ List.intercalate (",\n".data)
          (entries.map (fun e => ("  ".data) ++ json_of_entry e))
      ++ ("\n]".data)

/-- Outcomes of the export button flow. -/
inductive ExportResult
  | cancelled
  | aborted
  | written (contents : List Char)
deriving DecidableEq, Repr

/-- Export flow of `render` (list_page.rs lines 128–162).  Inputs mirror the
environment: the dialog result, whether `File::create` succeeds, whether the
final `write_all` succeeds, the connection pool's table (`store`) and the
sources cache — the flow reads only the cache.  A cancelled dialog returns
silently, a failed create returns silently, a failed write panics
(`expect`), modelled as `none`. -/
def export_flow (dialog_path : Option (List Char)) (create_ok write_ok : Bool)
    (store cache : List Source) : Option ExportResult :=
  match dialog_path with
  | none => some .cancelled
  | some _ =>
      if create_ok then
        let json := to_string_pretty (export_entries cache)
        if write_ok then some (.written json) else none
      else some .aborted

/-! ## Config store (src/config.rs) -/

/-- Observable state of the confy-managed config file. -/
inductive ConfigFileState
  | absent
  | stored (c : Config)
  | corrupt
  | unreadable
deriving DecidableEq

/-- The two classes of `confy::load` errors distinguished by `get_config`:
`BadTomlData` for unparseable contents, anything else otherwise. -/
inductive ConfyError
  | badTomlData
  | otherError
deriving DecidableEq

/-- Model of `confy::load`: returns the parsed config, creates a default
file on first run, fails with `BadTomlData` on corrupt contents. -/
def confy_load : ConfigFileState → Except ConfyError Config × ConfigFileState
  | .absent => (.ok Config.default, .stored Config.default)
  | .stored c => (.ok c, .stored c)
  | .corrupt => (.error .badTomlData, .corrupt)
  | .unreadable => (.error .otherError, .unreadable)

/-- Model of `confy::store`: writes the serialized config. -/
def confy_store (c : Config) (_fs : ConfigFileState) : ConfigFileState :=
  .stored c

/-- Recursion measure for `get_config`: only the corrupt state recurses. -/
def config_rank : ConfigFileState → Nat
  | .corrupt => 1
  | _ => 0

/-- Model of `Config::get_config` (config.rs lines 27–42): on `BadTomlData`
the file is reset to defaults and `get_config` recurses; any other load
error panics (`none`).  The `Nat` counts `confy::load` calls. -/
def get_config (fs : ConfigFileState) : Option (Config × ConfigFileState × Nat) :=
  match h : confy_load fs with
  | (.ok c, fs2) => some (c, fs2, 1)
  | (.error .badTomlData, fs2) =>
      match get_config (confy_store Config.default fs2) with
      | none => none
      | some (c, fs3, n) => some (c, fs3, n + 1)
  | (.error .otherError, _) => none
termination_by config_rank fs
decreasing_by
  cases fs with
  | corrupt => simp [confy_store, config_rank]
  | absent => simp [confy_load] at h
  | stored c => simp [confy_load] at h
  | unreadable => simp [confy_load] at h

/-! ## Digit-character lemmas -/

theorem digitChar_ne_brace (m : Nat) (hm : m < 10) : Nat.digitChar m ≠ '\x7b' := by
  interval_cases m <;> decide

theorem toDigitsCore_mem :
    ∀ (fuel n : Nat) (acc : List Char) (c : Char),
      c ∈ Nat.toDigitsCore 10 fuel n acc →
      c ∈ acc ∨ ∃ m, m < 10 ∧ c = Nat.digitChar m := by
  intro fuel
  induction fuel with
  | zero =>
      intro n acc c hc
      exact Or.inl hc
  | succ fuel ih =>
      intro n acc c hc
      simp only [Nat.toDigitsCore] at hc
      by_cases hz : n / 10 = 0
      · rw [if_pos hz] at hc
        rcases List.mem_cons.mp hc with h | h
        · exact Or.inr ⟨n % 10, Nat.mod_lt n (by omega), h⟩
        · exact Or.inl h
      · rw [if_neg hz] at hc
        rcases ih (n / 10) ((n % 10).digitChar :: acc) c hc with h | h
        · rcases List.mem_cons.mp h with h2 | h2
          · exact Or.inr ⟨n % 10, Nat.mod_lt n (by omega), h2⟩
          · exact Or.inl h2
        · exact Or.inr h

theorem brace_not_mem_nat_digits (n : Nat) : '\x7b' ∉ nat_digits n := by
  intro h
  rcases toDigitsCore_mem (n+1) n [] '\x7b' h with h2 | ⟨m, hm, heq⟩
  · exact List.not_mem_nil _ h2
  · exact digitChar_ne_brace m hm heq.symm

theorem brace_not_mem_format_year (y : Int) : '\x7b' ∉ format_year y := by
  unfold format_year zero_pad
  split_ifs <;> intro h <;>
    simp only [List.mem_cons, List.mem_append, List.mem_replicate] at h
  · rcases h with h | h
    · exact absurd h (by decide)
    · rcases h with h | h
      · exact absurd h.2 (by decide)
      · exact brace_not_mem_nat_digits _ h
  · rcases h with h | h
    · exact absurd h.2 (by decide)
    · exact brace_not_mem_nat_digits _ h
  · rcases h with h | h
    · exact absurd h (by decide)
    · exact brace_not_mem_nat_digits _ h

theorem brace_not_mem_zero2 (n : Int) : '\x7b' ∉ zero2 n := by
  unfold zero2 zero_pad
  intro h
  rcases List.mem_append.mp h with h1 | h2
  · exact absurd (List.eq_of_mem_replicate h1) (by decide)
  · exact brace_not_mem_nat_digits _ h2

/-- A `format_date` rendering of a brace-free format string contains no
opening brace: every output character is either a literal character of the
format string or a digit, sign or punctuation character of a date piece. -/
theorem format_date_no_brace (d : NaiveDate) :
    ∀ (fmt ou : List Char), '\x7b' ∉ fmt → format_date d fmt = some ou →
      '\x7b' ∉ ou := by
  have key : ∀ (n : Nat) (fmt ou : List Char), fmt.length ≤ n → '\x7b' ∉ fmt →
      format_date d fmt = some ou → '\x7b' ∉ ou := by
    intro n
    induction n with
    | zero =>
        intro fmt ou hlen hbr heq
        obtain rfl := List.length_eq_zero.mp (Nat.le_zero.mp hlen)
        simp only [format_date] at heq
        obtain rfl := Option.some.inj heq
        exact List.not_mem_nil _
    | succ n ih =>
        intro fmt ou hlen hbr heq
        cases fmt with
        | nil =>
            simp only [format_date] at heq
            obtain rfl := Option.some.inj heq
            exact List.not_mem_nil _
        | cons c rest =>
            by_cases hc : c = '%'
            · subst hc
              cases rest with
              | nil => exact Option.noConfusion heq
              | cons c2 rest2 =>
                  have heq3 : (match format_spec d c2 with
                      | none => none
                      | some piece =>
                          Option.map (fun t => piece ++ t) (format_date d rest2))
                      = some ou := heq
                  cases hspec : format_spec d c2 with
                  | none => rw [hspec] at heq3; cases heq3
                  | some piece =>
                      rw [hspec] at heq3
                      obtain ⟨t, ht, hou⟩ := Option.map_eq_some'.mp heq3
                      subst hou
                      have hpiece : '\x7b' ∉ piece := by
                        unfold format_spec at hspec
                        split_ifs at hspec with h1 h2 h3 h4
                        · obtain rfl := Option.some.inj hspec
                          exact brace_not_mem_format_year _
                        · obtain rfl := Option.some.inj hspec
                          exact brace_not_mem_zero2 _
                        · obtain rfl := Option.some.inj hspec
                          exact brace_not_mem_zero2 _
                        · obtain rfl := Option.some.inj hspec
                          decide
                      have ht2 : '\x7b' ∉ t := by
                        refine ih rest2 t ?_ ?_ ht
                        · simp only [List.length_cons] at hlen; omega
                        · intro hm2
                          exact hbr (List.mem_cons_of_mem _ (List.mem_cons_of_mem _ hm2))
                      intro hm
                      rcases List.mem_append.mp hm with h | h
                      · exact hpiece h
                      · exact ht2 h
            · rw [format_date.eq_def] at heq
              split at heq
              · rename_i heq9
                exact absurd heq9 (List.cons_ne_nil _ _)
              · rename_i rest9 heq9
                injection heq9 with hce hre
                exact absurd hce hc
              · rename_i c9 rest9 hne heq9
                injection heq9 with hce hre
                subst hce
                subst hre
                obtain ⟨t, ht, hou⟩ := Option.map_eq_some'.mp heq
                subst hou
                intro hm
                rcases List.mem_cons.mp hm with h | h
                · exact hbr (h ▸ List.mem_cons_self _ _)
                · refine ih rest t ?_ ?_ ht h
                  · simp only [List.length_cons] at hlen; omega
                  · intro hm2
                    exact hbr (List.mem_cons_of_mem _ hm2)
  intro fmt ou hbr heq
  exact key fmt.length fmt ou (Nat.le_refl _) hbr heq

/-! ## Round-trip helper lemmas -/

theorem format_date_default (d : NaiveDate) :
    format_date d default_date_format = some (render_dmy d) := by
  simp [default_date_format, format_date, format_spec, render_dmy]

theorem entry_roundtrip (s : Source)
    (hp : valid_date s.published_date) (hv : valid_date s.viewed_date) :
    entry_into_source (entry_from_source s) = some s := by
  unfold entry_into_source entry_from_source
  simp only
  rw [from_num_days_roundtrip _ hp, from_num_days_roundtrip _ hv]

theorem mapM_entry_roundtrip :
    ∀ sources : List Source,
      (∀ s ∈ sources, valid_date s.published_date ∧ valid_date s.viewed_date) →
      ((sources.map entry_from_source).mapM entry_into_source) = some sources := by
  intro sources
  induction sources with
  | nil => intro h; rfl
  | cons s rest ih =>
      intro h
      rw [List.map_cons, List.mapM_cons]
      rw [entry_roundtrip s (h s (List.mem_cons_self s rest)).1 (h s (List.mem_cons_self s rest)).2]
      rw [ih (fun x hx => h x (List.mem_cons_of_mem s hx))]
      rfl

theorem import_fold_shape :
    ∀ (srcs st : List Source),
      ∃ added, insert_all srcs st = st ++ added ∧
        List.Forall₂ same_except_id added srcs := by
  intro srcs
  induction srcs with
  | nil => intro st; exact ⟨[], by simp [insert_all], List.Forall₂.nil⟩
  | cons s rest ih =>
      intro st
      obtain ⟨added, heq, hf⟩ := ih (st ++ [{ s with id := next_id st }])
      refine ⟨{ s with id := next_id st } :: added, ?_, ?_⟩
      · unfold insert_all
        rw [List.foldl_cons]
        show insert_all rest (st ++ [{ s with id := next_id st }]) = _
        rw [heq, List.append_assoc]
        rfl
      · exact List.Forall₂.cons
          (by unfold same_except_id; exact ⟨rfl, rfl, rfl, rfl, rfl, rfl, rfl⟩) hf

/-! ## Concrete values used by witnesses and counterexamples -/

/-- March 4, 2020. -/
def sample_date : NaiveDate := ⟨2020, 3, 4⟩

/-- A plain persisted source with id 1. -/
def sample_source : Source :=
  ⟨1, ("Foo".data), ("example.com".data), ("X".data), sample_date, sample_date, false, []⟩

/-- A source with an empty author field. -/
def author_empty_source : Source :=
  ⟨2, ("T".data), ("u".data), [], sample_date, sample_date, false, []⟩

/-- A custom template consisting of the `TITLE` placeholder alone. -/
def title_cfg : Config := ⟨[], FormatStandard.Custom, ("\x7bTITLE\x7d".data)⟩

/-- A source whose title contains a literal `AUTHOR` placeholder. -/
def author_in_title_source : Source :=
  ⟨7, ("A \x7bAUTHOR\x7d B".data), [], ("X".data), sample_date, sample_date, false, []⟩

/-- A source of unknown publication date whose title contains a literal
published-date placeholder. -/
def pdate_in_title_source : Source :=
  ⟨7, ("See \x7bP_DATE(%d)\x7d".data), [], [], sample_date, sample_date, true, []⟩

/-- A custom template whose viewed-date sub-format is not a valid chrono
pattern. -/
def vq_cfg : Config := ⟨[], FormatStandard.Custom, ("\x7bV_DATE(%q)\x7d".data)⟩

/-- A custom template with empty date sub-formats. -/
def empty_fmt_cfg : Config :=
  ⟨[], FormatStandard.Custom, ("\x7bP_DATE()\x7d \x7bV_DATE()\x7d".data)⟩

/-- A custom template with two published-date placeholders carrying different
sub-formats. -/
def two_pdate_cfg : Config :=
  ⟨[], FormatStandard.Custom, ("\x7bP_DATE(%Y)\x7d \x7bP_DATE(%d)\x7d".data)⟩

/-- A source with an unknown publication date. -/
def c6_source : Source :=
  ⟨3, ("T".data), [], ("Au".data), sample_date, sample_date, true, []⟩

/-- A custom template embedding one published-date placeholder in plain
text. -/
def c6_cfg : Config :=
  ⟨[], FormatStandard.Custom,
   ("x ".data) ++ pdate_tag ++ ("%Y %m".data) ++ ')' :: '\x7d' :: (" y".data)⟩

/-! ## Claim theorems -/

/-- C3: if the stored config file exists but fails to parse, `get_config`
overwrites it with serialized defaults and returns the default `Config`,
using exactly two loads (one retry); a load failure that is not a parse
failure — a non-recoverable I/O problem — is fatal. -/
theorem C3_config_corruption_recovery :
    get_config ConfigFileState.corrupt
        = some (Config.default, ConfigFileState.stored Config.default, 2) ∧
    get_config (ConfigFileState.stored Config.default)
        = some (Config.default, ConfigFileState.stored Config.default, 1) ∧
    get_config ConfigFileState.unreadable = none := by
  refine ⟨?_, ?_, ?_⟩ <;> simp [get_config, confy_load, confy_store]

/-- C4 (counterexample): `update_source` on an id that matches no row
returns `Ok` — a silent success with zero rows affected, not an error — so
the claim that it fails with an error result is false. -/
theorem C4_update_nonexistent_not_error :
    update_source 9999 sample_source [sample_source] = Except.ok ([sample_source], 0) ∧
    ∀ e : DbError, update_source 9999 sample_source [sample_source] ≠ Except.error e := by
  constructor
  · rfl
  · intro e
    exact fun hcontra => nomatch e

/-- C4 (amended): `update_source` with an id that matches no row returns
success with zero rows affected and leaves the store unchanged. -/
theorem C4_update_nonexistent_is_silent_success (id : Int) (s : Source) (st : List Source)
    (h : ∀ r ∈ st, r.id ≠ id) :
    update_source id s st = Except.ok (st, 0) := by
  unfold update_source
  have hmap : st.map (fun r => if r.id = id then { s with id := r.id } else r) = st := by
    induction st with
    | nil => rfl
    | cons r rest ih =>
        rw [List.map_cons, if_neg (h r (List.mem_cons_self r rest)),
          ih (fun x hx => h x (List.mem_cons_of_mem r hx))]
  have hfil : st.filter (fun r => r.id = id) = [] := by
    refine List.filter_eq_nil_iff.mpr ?_
    intro x hx
    simp only [decide_eq_true_eq]
    exact h x hx
  rw [hmap, hfil]
  rfl

theorem C4_update_witness :
    (∀ r ∈ [sample_source], r.id ≠ 9999) ∧
    update_source 9999 sample_source [sample_source] = Except.ok ([sample_source], 0) :=
  ⟨by decide,
   C4_update_nonexistent_is_silent_success 9999 sample_source [sample_source] (by decide)⟩

/-- C8: deleting an id that matches no row succeeds with zero rows affected
and leaves the store — as observed by `get_all_sources` — unchanged. -/
theorem C8_delete_nonexistent_noop_success (id : Int) (st : List Source)
    (h : ∀ r ∈ st, r.id ≠ id) :
    delete_source id st = Except.ok (st, 0) ∧ get_all_sources st = Except.ok st := by
  constructor
  · unfold delete_source
    have hkeep : st.filter (fun r => r.id ≠ id) = st := by
      refine List.filter_eq_self.mpr ?_
      intro x hx
      simp only [ne_eq, decide_not, Bool.not_eq_eq_eq_not, Bool.not_true,
        decide_eq_false_iff_not]
      exact h x hx
    have hfil : st.filter (fun r => r.id = id) = [] := by
      refine List.filter_eq_nil_iff.mpr ?_
      intro x hx
      simp only [decide_eq_true_eq]
      exact h x hx
    rw [hkeep, hfil]
    rfl
  · rfl

theorem C8_delete_witness :
    (∀ r ∈ [sample_source], r.id ≠ 9999) ∧
    (delete_source 9999 [sample_source] = Except.ok ([sample_source], 0) ∧
      get_all_sources [sample_source] = Except.ok [sample_source]) :=
  ⟨by decide, C8_delete_nonexistent_noop_success 9999 [sample_source] (by decide)⟩

/-- C7 (counterexample): a failure of the final `write_all` does not abort
the export silently — the Rust code calls `expect`, which panics (`none`),
so the claim that any open-or-write failure is a silent abort is false. -/
theorem C7_export_write_failure_panics :
    export_flow (some ("export.json".data)) true false [] [sample_source] = none := rfl

/-- C7 (amended): export serializes the current sources cache — independent
of the store's contents — to pretty-printed JSON; a cancelled dialog or a
failed `File::create` aborts silently, while a failed write panics. -/
theorem C7_export_flow_behaviour (path : List Char) (ck wk : Bool)
    (store store2 cache : List Source) :
    export_flow none ck wk store cache = some ExportResult.cancelled ∧
    export_flow (some path) false wk store cache = some ExportResult.aborted ∧
    export_flow (some path) true true store cache
      = some (ExportResult.written (to_string_pretty (export_entries cache))) ∧
    export_flow (some path) true true store cache
      = export_flow (some path) true true store2 cache :=
  ⟨rfl, rfl, rfl, rfl⟩

/-- C5 (counterexample): the racy parallel inserts may commit the export of
`[sample_source, author_empty_source]` into an empty store in swapped
order; the resulting rows are then not positionally field-equal to the
original sequence, so the order-sensitive round-trip claim is false. -/
theorem C5_reordered_outcome_counterexample :
    import_outcome [] (export_entries [sample_source, author_empty_source])
      [{ author_empty_source with id := 1 }, { sample_source with id := 2 }] ∧
    ¬ List.Forall₂ same_except_id
      [{ author_empty_source with id := 1 }, { sample_source with id := 2 }]
      [sample_source, author_empty_source] := by
  constructor
  · show (match (export_entries [sample_source, author_empty_source]).mapM
          entry_into_source with
        | none => False
        | some srcs => ∃ order, srcs.Perm order ∧
            ([{ author_empty_source with id := 1 }, { sample_source with id := 2 }]
              : List Source) = insert_all order [])
    rw [show (export_entries [sample_source, author_empty_source]).mapM
          entry_into_source = some [sample_source, author_empty_source] from by decide]
    exact ⟨[author_empty_source, sample_source],
      List.Perm.swap author_empty_source sample_source [], by decide⟩
  · intro hf
    cases hf with
    | cons h1 h2 => exact absurd h1.1 (by decide)

/-- C5 (amended): importing the entries produced by exporting a list of
sources with representable dates always has an outcome, and in every
outcome of the racy parallel inserts the pre-existing rows stay in place
and the appended rows are — up to the commit-order permutation — equal to
the originals in every field except the store-reassigned id. -/
theorem C5_import_export_roundtrip (st sources : List Source)
    (h : ∀ s ∈ sources, valid_date s.published_date ∧ valid_date s.viewed_date) :
    (∃ st2, import_outcome st (export_entries sources) st2) ∧
    (∀ st2, import_outcome st (export_entries sources) st2 →
      st2.take st.length = st ∧
      ∃ sources2, sources.Perm sources2 ∧
        List.Forall₂ same_except_id (st2.drop st.length) sources2) := by
  have hmap : (export_entries sources).mapM entry_into_source = some sources := by
    unfold export_entries
    exact mapM_entry_roundtrip sources h
  constructor
  · refine ⟨insert_all sources st, ?_⟩
    unfold import_outcome
    rw [hmap]
    exact ⟨sources, List.Perm.refl sources, rfl⟩
  · intro st2 h2
    unfold import_outcome at h2
    rw [hmap] at h2
    obtain ⟨order, hperm, heq⟩ := h2
    obtain ⟨added, haeq, hf⟩ := import_fold_shape order st
    subst heq
    rw [haeq]
    constructor
    · rw [List.take_left]
    refine ⟨order, hperm, ?_⟩
    rw [List.drop_left]
    exact hf

theorem C5_roundtrip_witness :
    (∀ s ∈ [sample_source], valid_date s.published_date ∧ valid_date s.viewed_date) ∧
    ((∃ st2, import_outcome [] (export_entries [sample_source]) st2) ∧
     (∀ st2, import_outcome [] (export_entries [sample_source]) st2 →
        st2.take (List.length ([] : List Source)) = [] ∧
        ∃ sources2, List.Perm [sample_source] sources2 ∧
          List.Forall₂ same_except_id
            (st2.drop (List.length ([] : List Source))) sources2)) :=
  ⟨by decide, C5_import_export_roundtrip [] [sample_source] (by decide)⟩

/-- C9: the Default standard renders `[id]` followed by the fixed word
`Unbekannt` when the author is empty, and by the author text itself
otherwise. -/
theorem C9_default_author_placeholder (s : Source) (cfg : Config) :
    ∃ ou, Source.format s FormatStandard.Default cfg = some ou ∧
      (s.author = [] →
        (("[".data) ++ int_to_string s.id ++ ("]".data) ++ (" Unbekannt".data)) <+: ou) ∧
      (s.author ≠ [] →
        (("[".data) ++ int_to_string s.id ++ ("]".data) ++ (" ".data) ++ s.author) <+: ou) := by
  refine ⟨_, rfl, ?_, ?_⟩
  · intro h
    rw [if_pos h]
    refine ⟨(if s.published_date_unknown then []
        else (" (".data) ++ format_year s.published_date.year ++ (")".data))
      ++ (": ".data) ++ s.title ++ (" URL: ".data) ++ s.url
      ++ (" [Stand: ".data) ++ render_dmy s.viewed_date ++ ("]".data), ?_⟩
    simp [List.append_assoc]
  · intro h
    rw [if_neg h]
    refine ⟨(if s.published_date_unknown then []
        else (" (".data) ++ format_year s.published_date.year ++ (")".data))
      ++ (": ".data) ++ s.title ++ (" URL: ".data) ++ s.url
      ++ (" [Stand: ".data) ++ render_dmy s.viewed_date ++ ("]".data), ?_⟩
    simp [List.append_assoc]

theorem C9_author_witness :
    (∃ ou, Source.format author_empty_source FormatStandard.Default Config.default = some ou ∧
      (("[".data) ++ int_to_string author_empty_source.id ++ ("]".data)
        ++ (" Unbekannt".data)) <+: ou) ∧
    (∃ ou, Source.format sample_source FormatStandard.Default Config.default = some ou ∧
      (("[".data) ++ int_to_string sample_source.id ++ ("]".data)
        ++ (" ".data) ++ sample_source.author) <+: ou) := by
  constructor
  · obtain ⟨ou, h1, h2, h3⟩ := C9_default_author_placeholder author_empty_source Config.default
    exact ⟨ou, h1, h2 rfl⟩
  · obtain ⟨ou, h1, h2, h3⟩ := C9_default_author_placeholder sample_source Config.default
    exact ⟨ou, h1, h3 (by decide)⟩

/-- C10: custom substitution re-scans previously substituted text — a
literal `AUTHOR` placeholder inside the title is replaced by the author
value after the `TITLE` pass, and a literal published-date placeholder
inside the title of an unknown-date source is replaced by `Unknown`. -/
theorem C10_substitution_rescans_replaced_text :
    (("\x7bAUTHOR\x7d".data) <:+: author_in_title_source.title) ∧
    Source.format author_in_title_source FormatStandard.Custom title_cfg
      = some ("A X B".data) ∧
    Source.format pdate_in_title_source FormatStandard.Custom title_cfg
      = some ("See Unknown".data) := by
  refine ⟨⟨("A ".data), (" B".data), rfl⟩, rfl, rfl⟩

/-- C2 (counterexample): with the custom template `V_DATE(%q)` the formatter
panics inside chrono (`none`) instead of falling back to the default date
sub-format, so the claim that it never fails is false. -/
theorem C2_malformed_subformat_panics :
    Source.format sample_source FormatStandard.Custom vq_cfg = none := rfl

/-- C2 (amended): the custom formatter returns a string whenever its two
resolved date sub-formats render (an empty or missing sub-format resolves to
the default day.month.year pattern), and the Default formatter always
returns a string. -/
theorem C2_format_total_when_subformats_render (s : Source) (cfg : Config)
    (hp : s.published_date_unknown = false →
      (format_date s.published_date
        (resolve_date_format pdate_tag cfg.custom_format)).isSome = true)
    (hv : (format_date s.viewed_date
        (resolve_date_format vdate_tag cfg.custom_format)).isSome = true) :
    (Source.format s FormatStandard.Custom cfg).isSome = true ∧
    (Source.format s FormatStandard.Default cfg).isSome = true := by
  constructor
  · obtain ⟨v, hv2⟩ := Option.isSome_iff_exists.mp hv
    simp only [Source.format]
    cases hu : s.published_date_unknown with
    | true =>
        rw [hv2]
        rfl
    | false =>
        obtain ⟨p, hp2⟩ := Option.isSome_iff_exists.mp (hp hu)
        rw [hp2, hv2]
        rfl
  · rfl

theorem C2_total_witness :
    (sample_source.published_date_unknown = false →
      (format_date sample_source.published_date
        (resolve_date_format pdate_tag empty_fmt_cfg.custom_format)).isSome = true) ∧
    ((format_date sample_source.viewed_date
        (resolve_date_format vdate_tag empty_fmt_cfg.custom_format)).isSome = true) ∧
    ((Source.format sample_source FormatStandard.Custom empty_fmt_cfg).isSome = true ∧
     (Source.format sample_source FormatStandard.Default empty_fmt_cfg).isSome = true) :=
  ⟨fun _ => by decide, by decide,
   C2_format_total_when_subformats_render sample_source empty_fmt_cfg
     (fun _ => by decide) (by decide)⟩

/-- C6: for a source with unknown publication date the Default standard
omits the parenthesized year segment entirely, and the Custom standard
replaces a published-date placeholder with exactly the literal `Unknown`
in its position, regardless of the embedded sub-format. -/
theorem C6_unknown_date_rendering (s : Source) (cfg : Config) (a f b : List Char)
    (hu : s.published_date_unknown = true)
    (ha : '\x7b' ∉ a) (hb : '\x7b' ∉ b) (hbf : '\x7b' ∉ f) (hfp : ')' ∉ f)
    (hcf : cfg.custom_format = a ++ pdate_tag ++ f ++ ')' :: '\x7d' :: b) :
    Source.format s FormatStandard.Default cfg
      = some (("[".data) ++ int_to_string s.id ++ ("]".data)
          ++ (if s.author = [] then (" Unbekannt".data) else (" ".data) ++ s.author)
          ++ (": ".data) ++ s.title ++ (" URL: ".data) ++ s.url
          ++ (" [Stand: ".data) ++ render_dmy s.viewed_date ++ ("]".data)) ∧
    Source.format s FormatStandard.Custom cfg = some (a ++ ("Unknown".data) ++ b) := by
  have hrnb : '\x7b' ∉ (("P_DATE(".data) ++ (f ++ ')' :: '\x7d' :: b)) := by
    intro h
    rcases List.mem_append.mp h with h1 | h2
    · exact absurd h1 (by decide)
    · rcases List.mem_append.mp h2 with h3 | h4
      · exact hbf h3
      · rcases List.mem_cons.mp h4 with h5 | h6
        · exact absurd h5 (by decide)
        · rcases List.mem_cons.mp h6 with h7 | h8
          · exact absurd h7 (by decide)
          · exact hb h8
  have hshape : a ++ pdate_tag ++ f ++ ')' :: '\x7d' :: b
      = a ++ '\x7b' :: (("P_DATE(".data) ++ (f ++ ')' :: '\x7d' :: b)) := by
    rw [show pdate_tag = '\x7b' :: ("P_DATE(".data) from rfl]
    simp [List.append_assoc]
  have hnoLit : ∀ (x : Char) (pt : List Char), x ≠ 'P' →
      ¬ ('\x7b' :: x :: pt) <:+: (a ++ pdate_tag ++ f ++ ')' :: '\x7d' :: b) := by
    intro x pt hx
    rw [hshape]
    intro hinf
    have hpref := infix_single_brace ha hrnb hinf
    exact hx (List.cons_prefix_cons.mp hpref).1
  have hnoV : ¬ vdate_tag <:+: (a ++ pdate_tag ++ f ++ ')' :: '\x7d' :: b) := by
    rw [show vdate_tag = '\x7b' :: ('V' :: ("_DATE(".data)) from rfl]
    exact hnoLit 'V' ("_DATE(".data) (by decide)
  have hres : resolve_date_format vdate_tag (a ++ pdate_tag ++ f ++ ')' :: '\x7d' :: b)
      = default_date_format := by
    unfold resolve_date_format
    rw [captureGo_no_match vdate_tag _ hnoV]
  have hI : replaceLit ("\x7bINDEX\x7d".data) (int_to_string s.id)
      (a ++ pdate_tag ++ f ++ ')' :: '\x7d' :: b)
      = a ++ pdate_tag ++ f ++ ')' :: '\x7d' :: b :=
    replaceLit_no_match _ _ _ (hnoLit 'I' ("NDEX\x7d".data) (by decide))
  have hT : replaceLit ("\x7bTITLE\x7d".data) s.title
      (a ++ pdate_tag ++ f ++ ')' :: '\x7d' :: b)
      = a ++ pdate_tag ++ f ++ ')' :: '\x7d' :: b :=
    replaceLit_no_match _ _ _ (hnoLit 'T' ("ITLE\x7d".data) (by decide))
  have hU : replaceLit ("\x7bURL\x7d".data) s.url
      (a ++ pdate_tag ++ f ++ ')' :: '\x7d' :: b)
      = a ++ pdate_tag ++ f ++ ')' :: '\x7d' :: b :=
    replaceLit_no_match _ _ _ (hnoLit 'U' ("RL\x7d".data) (by decide))
  have hA : replaceLit ("\x7bAUTHOR\x7d".data) s.author
      (a ++ pdate_tag ++ f ++ ')' :: '\x7d' :: b)
      = a ++ pdate_tag ++ f ++ ')' :: '\x7d' :: b :=
    replaceLit_no_match _ _ _ (hnoLit 'A' ("UTHOR\x7d".data) (by decide))
  have hrep : replacePat pdate_tag ("Unknown".data)
      (a ++ pdate_tag ++ f ++ ')' :: '\x7d' :: b) = a ++ (("Unknown".data) ++ b) := by
    rw [hshape]
    rw [show pdate_tag = '\x7b' :: ("P_DATE(".data) from rfl]
    show replacePatGo ('\x7b' :: ("P_DATE(".data)) ("Unknown".data) 0
        (a ++ '\x7b' :: (("P_DATE(".data) ++ (f ++ ')' :: '\x7d' :: b)))
      = a ++ (("Unknown".data) ++ b)
    rw [replacePatGo_append_other ("P_DATE(".data) ("Unknown".data) a ha]
    rw [replacePatGo_match '\x7b' ("P_DATE(".data) ("Unknown".data) f b hfp]
    have hgo : replacePatGo ('\x7b' :: ("P_DATE(".data)) ("Unknown".data) 0 b = b :=
      replacePat_no_match _ _ b (not_infix_of_head_not_mem hb)
    rw [hgo]
  have hout5 : '\x7b' ∉ a ++ (("Unknown".data) ++ b) := by
    intro h
    rcases List.mem_append.mp h with h1 | h2
    · exact ha h1
    · rcases List.mem_append.mp h2 with h3 | h4
      · exact absurd h3 (by decide)
      · exact hb h4
  have hvrep : replacePat vdate_tag (render_dmy s.viewed_date)
      (a ++ (("Unknown".data) ++ b)) = a ++ (("Unknown".data) ++ b) := by
    refine replacePat_no_match _ _ _ ?_
    rw [show vdate_tag = '\x7b' :: ("V_DATE(".data) from rfl]
    exact not_infix_of_head_not_mem hout5
  constructor
  · simp only [Source.format]
    rw [hu]
    simp
  · simp only [Source.format]
    rw [hcf]
    cases hu2 : s.published_date_unknown with
    | false => rw [hu2] at hu; exact absurd hu (by decide)
    | true =>
        show (match format_date s.viewed_date
              (resolve_date_format vdate_tag (a ++ pdate_tag ++ f ++ ')' :: '\x7d' :: b)) with
            | none => none
            | some v =>
                some (replacePat vdate_tag v
                  (replacePat pdate_tag ("Unknown".data)
                    (replaceLit ("\x7bAUTHOR\x7d".data) s.author
                      (replaceLit ("\x7bURL\x7d".data) s.url
                        (replaceLit ("\x7bTITLE\x7d".data) s.title
                          (replaceLit ("\x7bINDEX\x7d".data) (int_to_string s.id)
                            (a ++ pdate_tag ++ f ++ ')' :: '\x7d' :: b))))))))
          = some (a ++ ("Unknown".data) ++ b)
        rw [hres, format_date_default s.viewed_date]
        show some (replacePat vdate_tag (render_dmy s.viewed_date)
            (replacePat pdate_tag ("Unknown".data)
              (replaceLit ("\x7bAUTHOR\x7d".data) s.author
                (replaceLit ("\x7bURL\x7d".data) s.url
                  (replaceLit ("\x7bTITLE\x7d".data) s.title
                    (replaceLit ("\x7bINDEX\x7d".data) (int_to_string s.id)
                      (a ++ pdate_tag ++ f ++ ')' :: '\x7d' :: b)))))))
          = some (a ++ ("Unknown".data) ++ b)
        rw [hI, hT, hU, hA, hrep, hvrep]
        simp [List.append_assoc]

theorem C6_unknown_witness :
    (c6_source.published_date_unknown = true) ∧
    ('\x7b' ∉ ("x ".data)) ∧ ('\x7b' ∉ (" y".data)) ∧
    ('\x7b' ∉ ("%Y %m".data)) ∧ (')' ∉ ("%Y %m".data)) ∧
    (Source.format c6_source FormatStandard.Default c6_cfg
        = some (("[".data) ++ int_to_string c6_source.id ++ ("]".data)
            ++ (if c6_source.author = [] then (" Unbekannt".data)
                else (" ".data) ++ c6_source.author)
            ++ (": ".data) ++ c6_source.title ++ (" URL: ".data) ++ c6_source.url
            ++ (" [Stand: ".data) ++ render_dmy c6_source.viewed_date ++ ("]".data)) ∧
      Source.format c6_source FormatStandard.Custom c6_cfg
        = some (("x ".data) ++ ("Unknown".data) ++ (" y".data))) :=
  ⟨rfl, by decide, by decide, by decide, by decide,
   C6_unknown_date_rendering c6_source c6_cfg ("x ".data) ("%Y %m".data) (" y".data)
     rfl (by decide) (by decide) (by decide) (by decide) rfl⟩

end Saveit
